import Mathlib

/-!
Verification of the dynamic-record layout engine in src/dynamic_types.rs.

Shallow embedding conventions:
- a Rust TypeId is modelled as a Nat;
- byte buffers (Vec<u8>, &[u8]) are modelled as List Nat;
- a function that can panic is modelled with an Option result, none being the
  panic;
- the default-value producer of a descriptor is modelled by the byte image it
  returns (DefaultBytes::default_bytes pushes exactly size_of::<T>() bytes);
- a descriptor's drop_fn being Some(...) is modelled by the Boolean needs_drop,
  because StaticTypeLayout::of stores Some exactly when
  std::mem::needs_drop::<T>() holds;
- destructor invocations are observable events: operations return, next to
  their data result, the list of (field index, byte offset) pairs at which a
  field destructor ran.
-/

set_option maxHeartbeats 1000000

namespace DynTypes

/-- Embedding of StaticTypeLayout (src/dynamic_types.rs lines 556-586): the
per-type descriptor with size, alignment, default byte producer, optional
destructor and display name. -/
structure StaticTypeLayout where
  type_id : Nat
  size : Nat
  align : Nat
  default_bytes : List Nat
  needs_drop : Bool
  name : String
deriving DecidableEq

/-- Insertion into the name_to_index AHashMap: insert overwrites any previous
binding of the same key. -/
def mapInsert (m : List (String × Nat)) (k : String) (v : Nat) : List (String × Nat) :=
  (k, v) :: m.filter (fun p => p.1 != k)

/-- Lookup in the name_to_index map (AHashMap::get). -/
def mapGet (m : List (String × Nat)) (k : String) : Option Nat :=
  (m.find? (fun p => p.1 == k)).map (fun p => p.2)

/-- Embedding of DynamicTypeLayout (src/dynamic_types.rs lines 131-141). -/
structure DynamicTypeLayout where
  name : String
  field_types : List Nat
  field_offsets : List Nat
  field_sizes : List Nat
  field_defaults : List (List Nat)
  field_drop_fns : List Bool
  name_to_index : List (String × Nat)
  total_size : Nat
  field_type_names : List String
deriving DecidableEq

/-- The loop locals of DynamicTypeLayout::new (src/dynamic_types.rs lines
145-154), carried through the per-field iteration. -/
structure NewState where
  field_types : List Nat
  field_offsets : List Nat
  field_sizes : List Nat
  field_defaults : List (List Nat)
  field_drop_fns : List Bool
  name_to_index : List (String × Nat)
  field_type_names : List String
  total_size : Nat
  offset : Nat
  index : Nat
deriving DecidableEq

/-- Initial loop state: empty vectors, total_size = 0, offset = 0. -/
def initState : NewState :=
  { field_types := [], field_offsets := [], field_sizes := [], field_defaults := []
    field_drop_fns := [], name_to_index := [], field_type_names := []
    total_size := 0, offset := 0, index := 0 }

/-- Rounding of the running offset up to the field's alignment
(src/dynamic_types.rs lines 160-163): remainder = offset % align and, when the
remainder is nonzero, offset += align - remainder. -/
def alignUp (offset align : Nat) : Nat :=
  if offset % align ≠ 0 then offset + (align - offset % align) else offset

/-- One iteration of the construction loop (src/dynamic_types.rs lines
155-173). The result none models a panic: the duplicate check panics when the
field NAME occurs in the accumulated TYPE-name list (the source tests
field_type_names.contains(&field.0)), and the remainder computation panics when
align is zero (which never happens for descriptors made by
StaticTypeLayout::of, whose align comes from align_of). -/
def newStep (st : NewState) (fname : String) (f : StaticTypeLayout) : Option NewState :=
  if st.field_type_names.contains fname then none
  else if f.align = 0 then none
  else
    let offset := alignUp st.offset f.align
    some { field_types := st.field_types ++ [f.type_id]
           field_offsets := st.field_offsets ++ [offset]
           field_sizes := st.field_sizes ++ [f.size]
           field_defaults := st.field_defaults ++ [f.default_bytes]
           field_drop_fns := st.field_drop_fns ++ [f.needs_drop]
           name_to_index := mapInsert st.name_to_index fname st.index
           field_type_names := st.field_type_names ++ [f.name]
           total_size := st.total_size + f.size
           offset := offset + f.size
           index := st.index + 1 }

/-- The construction loop over the declared fields. -/
def newFold : NewState → List (String × StaticTypeLayout) → Option NewState
  | st, [] => some st
  | st, (n, f) :: rest =>
    match newStep st n f with
    | none => none
    | some st1 => newFold st1 rest

/-- Embedding of DynamicTypeLayout::new (src/dynamic_types.rs lines 144-187).
After the loop the source computes total_size = total_size + (offset %
total_size); the remainder panics (modelled none) when total_size, the plain
sum of the field sizes, is zero, as it is for an empty field list. -/
def DynamicTypeLayout.new (name : String) (fields : List (String × StaticTypeLayout)) :
    Option DynamicTypeLayout :=
  match newFold initState fields with
  | none => none
  | some st =>
    if st.total_size = 0 then none
    else some { name := name
                field_types := st.field_types
                field_offsets := st.field_offsets
                field_sizes := st.field_sizes
                field_defaults := st.field_defaults
                field_drop_fns := st.field_drop_fns
                name_to_index := st.name_to_index
                total_size := st.total_size + st.offset % st.total_size
                field_type_names := st.field_type_names }

/-- Embedding of the DynamicFieldError enum (src/dynamic_types.rs lines
98-129); the set-side variants carry the value that could not be stored. -/
inductive DynamicFieldError (α : Type) where
  | fieldGetIndexOutOfBounds (index : Nat)
  | getFieldNameNotFound (name : String)
  | getInvalidTypeOfField (type_requested : String) (actual_type : String)
  | setFieldNameNotFound (name : String) (value : α)
  | fieldSetIndexOutOfBounds (value : α) (index : Nat)
  | setInvalidTypeOfField (value : α) (type_requested : String) (actual_type : String)
deriving DecidableEq

/-- Overwriting bytes.length bytes of data starting at offset. -/
def listWriteAt (data : List Nat) (offset : Nat) (bytes : List Nat) : List Nat :=
  data.take offset ++ bytes ++ data.drop (offset + bytes.length)

/-- Embedding of DynamicTypeLayout::type_is (src/dynamic_types.rs lines
239-242): field_types[index] == TypeId::of::<T>(). The Vec indexing panics
(none) when the index is out of bounds; note that the source performs this
indexing BEFORE any bounds check in the try_ accessors. -/
def DynamicTypeLayout.type_is (L : DynamicTypeLayout) (tid index : Nat) : Option Bool :=
  match L.field_types.get? index with
  | none => none
  | some t => some (t == tid)

/-- Embedding of set_field_unchecked_by_index (src/dynamic_types.rs lines
353-366). The source writes through ptr.cast::<T>() with a typed assignment
(the statement writes val to *ptr), and a typed place assignment in Rust first
drops the value previously stored at the destination whenever T needs dropping
(std::ptr::write exists precisely to avoid that drop, and is not used here).
tNeedsDrop is needs_drop of the written compile-time type T; the emission list
records the destructor invocation on the old field value. Writing outside the
buffer is undefined behaviour, modelled none, as is the Vec indexing panic of
field_offsets[index]. -/
def DynamicTypeLayout.set_field_unchecked_by_index (L : DynamicTypeLayout) (data : List Nat)
    (index : Nat) (tNeedsDrop : Bool) (bytes : List Nat) :
    Option (List Nat × List (Nat × Nat)) :=
  match L.field_offsets.get? index with
  | none => none
  | some offset =>
    if offset + bytes.length ≤ data.length then
      some (listWriteAt data offset bytes, if tNeedsDrop then [(index, offset)] else [])
    else none

/-- Embedding of set_field_by_index (src/dynamic_types.rs lines 196-201):
check_type panics (none) on an out-of-bounds index or a type mismatch, then
delegates to the unchecked setter. Because check_type has established that T is
the field's declared type, needs_drop::<T> is exactly the presence of the
field's recorded drop_fn (StaticTypeLayout::of stores drop_fn iff needs_drop
holds). -/
def DynamicTypeLayout.set_field_by_index (L : DynamicTypeLayout) (data : List Nat)
    (index tid : Nat) (bytes : List Nat) : Option (List Nat × List (Nat × Nat)) :=
  match L.type_is tid index with
  | none => none
  | some false => none
  | some true => L.set_field_unchecked_by_index data index (L.field_drop_fns.getD index false) bytes

/-- Embedding of try_set_field_by_index (src/dynamic_types.rs lines 212-226).
The source calls type_is FIRST (whose Vec indexing panics on an out-of-bounds
index) and only then tests field_offsets.len() < index, with the comparison
written in that inverted direction. -/
def DynamicTypeLayout.try_set_field_by_index {α : Type} (L : DynamicTypeLayout) (data : List Nat)
    (index tid : Nat) (tname : String) (val : α) (bytes : List Nat) :
    Option (Except (DynamicFieldError α) (List Nat × List (Nat × Nat))) :=
  match L.type_is tid index with
  | none => none
  | some true =>
    if L.field_offsets.length < index then
      some (Except.error (DynamicFieldError.fieldSetIndexOutOfBounds val index))
    else
      match L.set_field_unchecked_by_index data index (L.field_drop_fns.getD index false) bytes with
      | none => none
      | some res => some (Except.ok res)
  | some false =>
    match L.field_type_names.get? index with
    | none => none
    | some an => some (Except.error (DynamicFieldError.setInvalidTypeOfField val tname an))

/-- Embedding of try_set_field (src/dynamic_types.rs lines 203-210): name
lookup, then delegation by index; an unknown name yields SetFieldNameNotFound
carrying the value back. -/
def DynamicTypeLayout.try_set_field {α : Type} (L : DynamicTypeLayout) (data : List Nat)
    (name : String) (tid : Nat) (tname : String) (val : α) (bytes : List Nat) :
    Option (Except (DynamicFieldError α) (List Nat × List (Nat × Nat))) :=
  match mapGet L.name_to_index name with
  | some index => L.try_set_field_by_index data index tid tname val bytes
  | none => some (Except.error (DynamicFieldError.setFieldNameNotFound name val))

/-- Embedding of clone_field_unchecked_by_index (src/dynamic_types.rs lines
368-379): the returned T is the clone of the value sitting at the field's
offset; it is denoted by the field's byte slot. field_offsets[index] panics
(none) when out of bounds. -/
def DynamicTypeLayout.clone_field_unchecked_by_index (L : DynamicTypeLayout) (data : List Nat)
    (index : Nat) : Option (List Nat) :=
  match L.field_offsets.get? index with
  | none => none
  | some offset => some ((data.drop offset).take (L.field_sizes.getD index 0))

/-- Embedding of try_clone_field_by_index (src/dynamic_types.rs lines 266-278);
same panic-before-bounds-check shape as the setter, with the value-free error
type DynamicFieldError of unit. -/
def DynamicTypeLayout.try_clone_field_by_index (L : DynamicTypeLayout) (data : List Nat)
    (index tid : Nat) (tname : String) :
    Option (Except (DynamicFieldError Unit) (List Nat)) :=
  match L.type_is tid index with
  | none => none
  | some true =>
    if L.field_offsets.length < index then
      some (Except.error (DynamicFieldError.fieldGetIndexOutOfBounds index))
    else
      match L.clone_field_unchecked_by_index data index with
      | none => none
      | some v => some (Except.ok v)
  | some false =>
    match L.field_type_names.get? index with
    | none => none
    | some an => some (Except.error (DynamicFieldError.getInvalidTypeOfField tname an))

/-- Embedding of try_clone_field (src/dynamic_types.rs lines 256-264). -/
def DynamicTypeLayout.try_clone_field (L : DynamicTypeLayout) (data : List Nat)
    (name : String) (tid : Nat) (tname : String) :
    Option (Except (DynamicFieldError Unit) (List Nat)) :=
  match mapGet L.name_to_index name with
  | some index => L.try_clone_field_by_index data index tid tname
  | none => some (Except.error (DynamicFieldError.getFieldNameNotFound name))

/-- Embedding of get_field_ref_unchecked_by_index (src/dynamic_types.rs lines
381-392): the returned reference is the buffer pointer advanced by the field's
offset; it is denoted by that offset. -/
def DynamicTypeLayout.get_field_ref_unchecked_by_index (L : DynamicTypeLayout) (data : List Nat)
    (index : Nat) : Option Nat :=
  match L.field_offsets.get? index with
  | none => none
  | some offset => some offset

/-- Embedding of try_get_field_ref_by_index (src/dynamic_types.rs lines
302-314). -/
def DynamicTypeLayout.try_get_field_ref_by_index (L : DynamicTypeLayout) (data : List Nat)
    (index tid : Nat) (tname : String) :
    Option (Except (DynamicFieldError Unit) Nat) :=
  match L.type_is tid index with
  | none => none
  | some true =>
    if L.field_offsets.length < index then
      some (Except.error (DynamicFieldError.fieldGetIndexOutOfBounds index))
    else
      match L.get_field_ref_unchecked_by_index data index with
      | none => none
      | some r => some (Except.ok r)
  | some false =>
    match L.field_type_names.get? index with
    | none => none
    | some an => some (Except.error (DynamicFieldError.getInvalidTypeOfField tname an))

/-- Embedding of try_get_field_ref (src/dynamic_types.rs lines 292-300). -/
def DynamicTypeLayout.try_get_field_ref (L : DynamicTypeLayout) (data : List Nat)
    (name : String) (tid : Nat) (tname : String) :
    Option (Except (DynamicFieldError Unit) Nat) :=
  match mapGet L.name_to_index name with
  | some index => L.try_get_field_ref_by_index data index tid tname
  | none => some (Except.error (DynamicFieldError.getFieldNameNotFound name))

/-- Embedding of try_get_field_mut_by_index (src/dynamic_types.rs lines
339-351); structurally identical to the shared-reference variant. -/
def DynamicTypeLayout.try_get_field_mut_by_index (L : DynamicTypeLayout) (data : List Nat)
    (index tid : Nat) (tname : String) :
    Option (Except (DynamicFieldError Unit) Nat) :=
  match L.type_is tid index with
  | none => none
  | some true =>
    if L.field_offsets.length < index then
      some (Except.error (DynamicFieldError.fieldGetIndexOutOfBounds index))
    else
      match L.get_field_ref_unchecked_by_index data index with
      | none => none
      | some r => some (Except.ok r)
  | some false =>
    match L.field_type_names.get? index with
    | none => none
    | some an => some (Except.error (DynamicFieldError.getInvalidTypeOfField tname an))

/-- Embedding of try_get_field_mut (src/dynamic_types.rs lines 329-337). -/
def DynamicTypeLayout.try_get_field_mut (L : DynamicTypeLayout) (data : List Nat)
    (name : String) (tid : Nat) (tname : String) :
    Option (Except (DynamicFieldError Unit) Nat) :=
  match mapGet L.name_to_index name with
  | some index => L.try_get_field_mut_by_index data index tid tname
  | none => some (Except.error (DynamicFieldError.getFieldNameNotFound name))

/-- Embedding of DynamicStruct (src/dynamic_types.rs lines 409-412): a layout
plus an owned byte buffer. -/
structure DynamicStruct where
  type_layout : DynamicTypeLayout
  data : List Nat
deriving DecidableEq

/-- Per-field destructor invocations of the Drop loop (src/dynamic_types.rs
lines 420-427): for every field whose descriptor carries a drop_fn, the
destructor runs on the pointer at the field's offset into the buffer. -/
def dropLoop (drop_fns : List Bool) (offsets : List Nat) (index : Nat) : List (Nat × Nat) :=
  match drop_fns with
  | [] => []
  | b :: rest =>
    (if b then [(index, offsets.getD index 0)] else []) ++ dropLoop rest offsets (index + 1)

/-- Destructor invocations performed when a DynamicStruct is released (impl
Drop, src/dynamic_types.rs lines 414-429): nothing when the buffer is empty
(data taken by cast, or a zero sized type), otherwise one invocation per
drop_fn-carrying field at that field's offset. -/
def dropEmits (s : DynamicStruct) : List (Nat × Nat) :=
  if s.data.length = 0 then []
  else dropLoop s.type_layout.field_drop_fns s.type_layout.field_offsets 0

/-- The default-byte writing loop of DynamicStruct::new (src/dynamic_types.rs
lines 435-445): for each (default bytes, offset) pair, copy the bytes into the
buffer at the offset; the slice indexing panics (none) when a write would land
beyond the buffer. -/
def writeDefaults (data : List Nat) : List (List Nat × Nat) → Option (List Nat)
  | [] => some data
  | (bytes, offset) :: rest =>
    if offset + bytes.length ≤ data.length then
      writeDefaults (listWriteAt data offset bytes) rest
    else none

/-- Embedding of DynamicStruct::new (src/dynamic_types.rs lines 432-448):
allocate total_size zero bytes, then write every field's default byte image at
its offset. -/
def DynamicStruct.new (L : DynamicTypeLayout) : Option DynamicStruct :=
  match writeDefaults (List.replicate L.total_size 0) (L.field_defaults.zip L.field_offsets) with
  | none => none
  | some data => some { type_layout := L, data := data }

/-- Result of DynamicStruct::cast (src/dynamic_types.rs lines 457-464):
panicked carries the instance exactly as it stood when the size check fired
(the check precedes every mutation); ok carries the byte image of the returned
T together with the consumed instance. -/
inductive CastResult where
  | panicked (s : DynamicStruct)
  | ok (bytes : List Nat) (s : DynamicStruct)
deriving DecidableEq

/-- Embedding of DynamicStruct::cast (src/dynamic_types.rs lines 457-464): if
the buffer length differs from size_of::<T>() the function panics before
touching the buffer; otherwise it clones the buffer, clears the instance's
data, and rebuilds T from the cloned bytes (VecToType::cast copies exactly
size_of::<T>() bytes, so the returned T's byte image equals the pre-consume
buffer). The cleared instance is dropped at the end of cast with an empty
buffer, so its Drop performs no field teardown. -/
def DynamicStruct.cast (s : DynamicStruct) (tsize : Nat) : CastResult :=
  if s.data.length ≠ tsize then CastResult.panicked s
  else CastResult.ok s.data { s with data := [] }

/-- Operations a holder can perform on a live instance: a checked write
(DynamicStruct::set_field_by_index with the written type's TypeId) and a
consuming cast to a type of the given size. -/
inductive Op where
  | set (index : Nat) (tid : Nat) (bytes : List Nat)
  | cast (tsize : Nat)
deriving DecidableEq

/-- One lifecycle step: the new instance state plus the destructor invocations
the operation performed; none models a panic or undefined behaviour, which
ends the lifecycle. -/
def opStep (s : DynamicStruct) : Op → Option (DynamicStruct × List (Nat × Nat))
  | Op.set index tid bytes =>
    match s.type_layout.set_field_by_index s.data index tid bytes with
    | none => none
    | some (data', ems) => some ({ s with data := data' }, ems)
  | Op.cast tsize =>
    match DynamicStruct.cast s tsize with
    | CastResult.panicked _ => none
    | CastResult.ok _ s' => some (s', [])

/-- Running a list of operations, accumulating destructor invocations. -/
def runOps (s : DynamicStruct) : List Op → Option (DynamicStruct × List (Nat × Nat))
  | [] => some (s, [])
  | op :: rest =>
    match opStep s op with
    | none => none
    | some (s1, em) =>
      match runOps s1 rest with
      | none => none
      | some (s2, ems) => some (s2, em ++ ems)

/-- Destructor invocations over a whole instance lifetime: those of the
operations, followed by those of the final release (Drop). -/
def lifetimeEmits (s : DynamicStruct) (ops : List Op) : Option (List (Nat × Nat)) :=
  match runOps s ops with
  | none => none
  | some (s', ems) => some (ems ++ dropEmits s')

/-- How many of the emitted destructor invocations hit field i. -/
def countIdx (ems : List (Nat × Nat)) (i : Nat) : Nat :=
  (ems.filter (fun e => e.1 == i)).length

/-- How many operations of the list are writes to field i whose written type
carries a destructor (under layout L). -/
def dropWrites (L : DynamicTypeLayout) (i : Nat) : List Op → Nat
  | [] => 0
  | Op.set j _ _ :: rest =>
    (if j = i ∧ L.field_drop_fns.getD j false = true then 1 else 0) + dropWrites L i rest
  | Op.cast _ :: rest => dropWrites L i rest

/-- Destructor invocations a single operation performs for field i: a checked
write to a droppable field i drops the overwritten value once; a consuming cast
drops nothing. -/
def opEmitCount (L : DynamicTypeLayout) (i : Nat) : Op → Nat
  | Op.set j _ _ => if j = i ∧ L.field_drop_fns.getD j false = true then 1 else 0
  | Op.cast _ => 0

/-- Offsets the construction loop assigns from a given running cursor. -/
def offsetsFrom (c : Nat) : List (String × StaticTypeLayout) → List Nat
  | [] => []
  | p :: rest => alignUp c p.2.align :: offsetsFrom (alignUp c p.2.align + p.2.size) rest

/-- Value of the running cursor after the construction loop. -/
def endFrom (c : Nat) : List (String × StaticTypeLayout) → Nat
  | [] => c
  | p :: rest => endFrom (alignUp c p.2.align + p.2.size) rest

/-- Plain sum of the declared field sizes. -/
def sizesSum (fields : List (String × StaticTypeLayout)) : Nat :=
  (fields.map (fun p => p.2.size)).sum

/-- Default field used for out-of-range getD reads in theorem statements. -/
def defaultField : String × StaticTypeLayout :=
  ("", { type_id := 0, size := 0, align := 0, default_bytes := [], needs_drop := false, name := "" })

/-- Sample descriptor shaped like u8: size 1, align 1, no destructor. -/
def u8L : StaticTypeLayout :=
  { type_id := 1, size := 1, align := 1, default_bytes := [0], needs_drop := false, name := "u8" }

/-- Sample descriptor shaped like u32: size 4, align 4, no destructor. -/
def u32L : StaticTypeLayout :=
  { type_id := 2, size := 4, align := 4, default_bytes := [0, 0, 0, 0], needs_drop := false
    name := "u32" }

/-- Sample descriptor of a resource-owning type shaped like a box over u8:
size 8, align 8, carries a destructor. -/
def dropL : StaticTypeLayout :=
  { type_id := 4, size := 8, align := 8, default_bytes := [0, 0, 0, 0, 0, 0, 0, 0]
    needs_drop := true, name := "alloc::boxed::Box<u8>" }

/-- The all-empty layout, used as the fallback of getD extractions. -/
def emptyLayout : DynamicTypeLayout :=
  { name := "", field_types := [], field_offsets := [], field_sizes := [], field_defaults := []
    field_drop_fns := [], name_to_index := [], total_size := 0, field_type_names := [] }

/-- Sample schema with a u8 field and a u32 field. -/
def LW : DynamicTypeLayout :=
  (DynamicTypeLayout.new "W" [("o", u8L), ("a", u32L)]).getD emptyLayout

/-- Sample schema with a single u8 field. -/
def L1 : DynamicTypeLayout :=
  (DynamicTypeLayout.new "One" [("a", u8L)]).getD emptyLayout

/-- Sample schema with a single destructor-carrying field. -/
def L3 : DynamicTypeLayout :=
  (DynamicTypeLayout.new "D" [("x", dropL)]).getD emptyLayout

end DynTypes

namespace DynTypes

/-- The rounded offset is a multiple of the (positive) alignment. -/
theorem alignUp_mod (c a : Nat) (h : 1 ≤ a) : alignUp c a % a = 0 := by
  unfold alignUp
  split_ifs with hr
  · have h1 : c % a < a := Nat.mod_lt _ h
    have h2 : a * (c / a) + c % a = c := Nat.div_add_mod c a
    have h3 : c + (a - c % a) = a * (c / a + 1) := by rw [Nat.mul_succ]; omega
    rw [h3]
    exact Nat.mul_mod_right a (c / a + 1)
  · omega

/-- Rounding up never moves the cursor backwards. -/
theorem le_alignUp (c a : Nat) : c ≤ alignUp c a := by
  unfold alignUp
  split_ifs <;> omega

/-- With a positive alignment, rounding up advances by less than one whole
alignment. -/
theorem alignUp_lt (c a : Nat) (h : 1 ≤ a) : alignUp c a < c + a := by
  unfold alignUp
  have h1 : c % a < a := Nat.mod_lt _ h
  split_ifs with hr <;> omega

/-- Offset zero is already aligned for every alignment. -/
theorem alignUp_zero (a : Nat) : alignUp 0 a = 0 := by
  simp [alignUp]

/-- Unfolding lemma for the size sum. -/
theorem sizesSum_cons (p : String × StaticTypeLayout) (rest : List (String × StaticTypeLayout)) :
    sizesSum (p :: rest) = p.2.size + sizesSum rest := by
  simp [sizesSum]

/-- What one successful loop iteration does to the loop state. -/
theorem newStep_spec (st st1 : NewState) (n : String) (f : StaticTypeLayout)
    (h : newStep st n f = some st1) :
    st1.field_offsets = st.field_offsets ++ [alignUp st.offset f.align] ∧
    st1.offset = alignUp st.offset f.align + f.size ∧
    st1.total_size = st.total_size + f.size ∧
    st1.field_sizes = st.field_sizes ++ [f.size] ∧
    st1.field_defaults = st.field_defaults ++ [f.default_bytes] ∧
    st1.field_drop_fns = st.field_drop_fns ++ [f.needs_drop] ∧
    1 ≤ f.align := by
  unfold newStep at h
  by_cases hdup : st.field_type_names.contains n
  · rw [if_pos hdup] at h
    exact Option.noConfusion h
  · by_cases halign : f.align = 0
    · rw [if_neg hdup, if_pos halign] at h
      exact Option.noConfusion h
    · rw [if_neg hdup, if_neg halign] at h
      injection h with h
      subst h
      exact ⟨rfl, rfl, rfl, rfl, rfl, rfl, by omega⟩

/-- The construction loop, characterized: a successful run appends exactly the
offsets computed by the alignment-padding recursion, leaves the cursor at the
recursion's end value, adds up the field sizes, and pushes the per-field
metadata in order; moreover every processed alignment was positive. -/
theorem newFold_spec : ∀ (fields : List (String × StaticTypeLayout)) (st st' : NewState),
    newFold st fields = some st' →
    st'.field_offsets = st.field_offsets ++ offsetsFrom st.offset fields ∧
    st'.offset = endFrom st.offset fields ∧
    st'.total_size = st.total_size + sizesSum fields ∧
    st'.field_sizes = st.field_sizes ++ fields.map (fun p => p.2.size) ∧
    st'.field_defaults = st.field_defaults ++ fields.map (fun p => p.2.default_bytes) ∧
    st'.field_drop_fns = st.field_drop_fns ++ fields.map (fun p => p.2.needs_drop) ∧
    (∀ p ∈ fields, 1 ≤ p.2.align) := by
  intro fields
  induction fields with
  | nil =>
    intro st st' h
    simp only [newFold] at h
    cases h
    simp [offsetsFrom, endFrom, sizesSum]
  | cons hd rest ih =>
    intro st st' h
    obtain ⟨n, f⟩ := hd
    simp only [newFold] at h
    cases hstep : newStep st n f with
    | none => rw [hstep] at h; exact Option.noConfusion h
    | some st1 =>
      rw [hstep] at h
      obtain ⟨r1, r2, r3, r4, r5, r6, r7⟩ := ih st1 st' h
      obtain ⟨q1, q2, q3, q4, q5, q6, q7⟩ := newStep_spec st st1 n f hstep
      refine ⟨?_, ?_, ?_, ?_, ?_, ?_, ?_⟩
      · rw [r1, q1, q2]
        simp [offsetsFrom, List.append_assoc]
      · rw [r2, q2]
        simp [endFrom]
      · rw [r3, q3, sizesSum_cons]
        show st.total_size + f.size + sizesSum rest = st.total_size + (f.size + sizesSum rest)
        omega
      · rw [r4, q4]
        simp [List.append_assoc]
      · rw [r5, q5]
        simp [List.append_assoc]
      · rw [r6, q6]
        simp [List.append_assoc]
      · intro p hp
        rcases List.mem_cons.mp hp with h1 | h1
        · subst h1; exact q7
        · exact r7 p h1

/-- DynamicTypeLayout::new, characterized on success: the stored offsets are
the alignment-padding recursion from cursor zero, the metadata vectors mirror
the input fields, the plain size sum is nonzero (otherwise the final remainder
would have panicked), and total_size is that sum plus the final cursor's
remainder modulo it. -/
theorem new_spec (name : String) (fields : List (String × StaticTypeLayout))
    (L : DynamicTypeLayout) (h : DynamicTypeLayout.new name fields = some L) :
    L.field_offsets = offsetsFrom 0 fields ∧
    L.field_sizes = fields.map (fun p => p.2.size) ∧
    L.field_defaults = fields.map (fun p => p.2.default_bytes) ∧
    L.field_drop_fns = fields.map (fun p => p.2.needs_drop) ∧
    sizesSum fields ≠ 0 ∧
    L.total_size = sizesSum fields + endFrom 0 fields % sizesSum fields ∧
    (∀ p ∈ fields, 1 ≤ p.2.align) := by
  unfold DynamicTypeLayout.new at h
  split at h
  · exact Option.noConfusion h
  · rename_i st hf
    split_ifs at h with hz
    injection h with h
    subst h
    obtain ⟨r1, r2, r3, r4, r5, r6, r7⟩ := newFold_spec fields initState st hf
    simp only [initState, List.nil_append] at r1 r2 r3 r4 r5 r6
    exact ⟨r1, r4, r5, r6, by omega, by rw [r3, r2]; simp, r7⟩

/-- An in-bounds getD read produces a member of the list. -/
theorem getD_mem_of_lt {α : Type} (l : List α) (i : Nat) (d : α) (h : i < l.length) :
    l.getD i d ∈ l := by
  induction l generalizing i with
  | nil => simp at h
  | cons x xs ih =>
    cases i with
    | zero => simp
    | succ j =>
      simp only [List.getD_cons_succ]
      exact List.mem_cons_of_mem _ (ih j (by simpa using Nat.lt_of_succ_lt_succ h))

/-- The loop assigns one offset per field. -/
theorem offsetsFrom_length : ∀ (fields : List (String × StaticTypeLayout)) (c : Nat),
    (offsetsFrom c fields).length = fields.length := by
  intro fields
  induction fields with
  | nil => intro c; rfl
  | cons p rest ih => intro c; simp [offsetsFrom, ih]

/-- Each assigned offset after the first is the previous field's end rounded
up to the next field's alignment. -/
theorem offsetsFrom_chain : ∀ (fields : List (String × StaticTypeLayout)) (c i : Nat),
    i + 1 < fields.length →
    (offsetsFrom c fields).getD (i + 1) 0 =
      alignUp ((offsetsFrom c fields).getD i 0 + (fields.getD i defaultField).2.size)
        ((fields.getD (i + 1) defaultField).2.align) := by
  intro fields
  induction fields with
  | nil => intro c i h; simp at h
  | cons p rest ih =>
    intro c i h
    cases i with
    | zero =>
      cases rest with
      | nil => simp at h
      | cons q rest2 => simp [offsetsFrom]
    | succ j =>
      simp only [offsetsFrom, List.getD_cons_succ]
      exact ih (alignUp c p.2.align + p.2.size) j (by simpa using Nat.lt_of_succ_lt_succ h)

/-- Every assigned offset is a multiple of its field's alignment. -/
theorem offsetsFrom_aligned : ∀ (fields : List (String × StaticTypeLayout)) (c i : Nat),
    (∀ p ∈ fields, 1 ≤ p.2.align) → i < fields.length →
    (offsetsFrom c fields).getD i 0 % (fields.getD i defaultField).2.align = 0 := by
  intro fields
  induction fields with
  | nil => intro c i _ h; simp at h
  | cons p rest ih =>
    intro c i hal h
    cases i with
    | zero =>
      simp only [offsetsFrom, List.getD_cons_zero]
      exact alignUp_mod c p.2.align (hal p (List.mem_cons_self p rest))
    | succ j =>
      simp only [offsetsFrom, List.getD_cons_succ]
      exact ih (alignUp c p.2.align + p.2.size) j
        (fun q hq => hal q (List.mem_cons_of_mem p hq)) (by simpa using Nat.lt_of_succ_lt_succ h)

/-- The final cursor never precedes the starting cursor. -/
theorem endFrom_mono : ∀ (fields : List (String × StaticTypeLayout)) (c : Nat),
    c ≤ endFrom c fields := by
  intro fields
  induction fields with
  | nil => intro c; exact Nat.le_refl c
  | cons p rest ih =>
    intro c
    have h1 := le_alignUp c p.2.align
    have h2 := ih (alignUp c p.2.align + p.2.size)
    simp only [endFrom]
    omega

/-- For a nonempty field list, the final cursor is exactly the last field's
offset plus its size. -/
theorem endFrom_last : ∀ (fields : List (String × StaticTypeLayout)) (c : Nat),
    fields ≠ [] →
    endFrom c fields =
      (offsetsFrom c fields).getD (fields.length - 1) 0 +
        (fields.getD (fields.length - 1) defaultField).2.size := by
  intro fields
  induction fields with
  | nil => intro c h; exact absurd rfl h
  | cons p rest ih =>
    intro c _
    cases rest with
    | nil => simp [endFrom, offsetsFrom]
    | cons q rest2 =>
      have h2 := ih (alignUp c p.2.align + p.2.size) (by simp)
      simp only [endFrom] at h2 ⊢
      rw [h2]
      have hl : (p :: q :: rest2 : List (String × StaticTypeLayout)).length - 1 =
          ((q :: rest2 : List (String × StaticTypeLayout)).length - 1) + 1 := by
        simp
      rw [hl]
      simp only [offsetsFrom, List.getD_cons_succ]

/-- Every field ends at or before the final cursor. -/
theorem offsetsFrom_end_le : ∀ (fields : List (String × StaticTypeLayout)) (c i : Nat),
    i < fields.length →
    (offsetsFrom c fields).getD i 0 + (fields.getD i defaultField).2.size ≤ endFrom c fields := by
  intro fields
  induction fields with
  | nil => intro c i h; simp at h
  | cons p rest ih =>
    intro c i h
    cases i with
    | zero =>
      simp only [offsetsFrom, endFrom, List.getD_cons_zero]
      exact endFrom_mono rest (alignUp c p.2.align + p.2.size)
    | succ j =>
      simp only [offsetsFrom, endFrom, List.getD_cons_succ]
      exact ih (alignUp c p.2.align + p.2.size) j (by simpa using Nat.lt_of_succ_lt_succ h)

/-- The final cursor is at least the starting cursor plus all field sizes. -/
theorem sizes_le_endFrom : ∀ (fields : List (String × StaticTypeLayout)) (c : Nat),
    c + sizesSum fields ≤ endFrom c fields := by
  intro fields
  induction fields with
  | nil => intro c; simp [sizesSum, endFrom]
  | cons p rest ih =>
    intro c
    have h1 := le_alignUp c p.2.align
    have h2 := ih (alignUp c p.2.align + p.2.size)
    simp only [endFrom, sizesSum_cons]
    omega

/-- When every field's alignment is positive and at most its size, padding is
bounded: the final cursor plus the field count stays within twice the size
sum. -/
theorem endFrom_bound : ∀ (fields : List (String × StaticTypeLayout)) (c : Nat),
    (∀ p ∈ fields, 1 ≤ p.2.align ∧ p.2.align ≤ p.2.size) →
    endFrom c fields + fields.length ≤ c + 2 * sizesSum fields := by
  intro fields
  induction fields with
  | nil => intro c _; simp [sizesSum, endFrom]
  | cons p rest ih =>
    intro c h
    obtain ⟨ha1, ha2⟩ := h p (List.mem_cons_self p rest)
    have h1 := alignUp_lt c p.2.align ha1
    have h2 := ih (alignUp c p.2.align + p.2.size) (fun q hq => h q (List.mem_cons_of_mem p hq))
    simp only [endFrom, sizesSum_cons, List.length_cons]
    omega

/-- Among the multiples of a that are at least e, the one below e + a is the
least. -/
theorem min_multiple (a o m e : Nat) (h1 : o % a = 0) (h2 : m % a = 0) (h3 : e ≤ o)
    (h4 : o < e + a) (h5 : e ≤ m) : o ≤ m := by
  by_contra hlt
  push_neg at hlt
  have d1 : a ∣ o := Nat.dvd_of_mod_eq_zero h1
  have d2 : a ∣ m := Nat.dvd_of_mod_eq_zero h2
  have d3 : a ∣ o - m := Nat.dvd_sub' d1 d2
  have hpos : 0 < o - m := by omega
  have := Nat.le_of_dvd hpos d3
  omega

/-- C1: for every schema built from an ordered field list, the first field's
offset is 0 and each later field's offset is the smallest value at least the
previous field's offset plus its size that is a multiple of the later field's
alignment; consequently every field's offset is divisible by its alignment and
adjacent fields do not overlap. -/
theorem claim_c1 (name : String) (fields : List (String × StaticTypeLayout))
    (L : DynamicTypeLayout) (h : DynamicTypeLayout.new name fields = some L) :
    L.field_offsets.length = fields.length ∧
    (0 < fields.length → L.field_offsets.getD 0 0 = 0) ∧
    (∀ i, i < fields.length →
      L.field_offsets.getD i 0 % (fields.getD i defaultField).2.align = 0) ∧
    (∀ i, i + 1 < fields.length →
      L.field_offsets.getD i 0 + (fields.getD i defaultField).2.size ≤
        L.field_offsets.getD (i + 1) 0 ∧
      L.field_offsets.getD (i + 1) 0 <
        L.field_offsets.getD i 0 + (fields.getD i defaultField).2.size +
          (fields.getD (i + 1) defaultField).2.align ∧
      ∀ m, L.field_offsets.getD i 0 + (fields.getD i defaultField).2.size ≤ m →
        m % (fields.getD (i + 1) defaultField).2.align = 0 →
        L.field_offsets.getD (i + 1) 0 ≤ m) := by
  obtain ⟨r1, _, _, _, _, _, r7⟩ := new_spec name fields L h
  rw [r1]
  refine ⟨offsetsFrom_length fields 0, ?_, ?_, ?_⟩
  · intro h0
    cases fields with
    | nil => simp at h0
    | cons p rest => simp [offsetsFrom, alignUp_zero]
  · intro i hi
    exact offsetsFrom_aligned fields 0 i r7 hi
  · intro i hi
    have ha : 1 ≤ (fields.getD (i + 1) defaultField).2.align :=
      r7 _ (getD_mem_of_lt fields (i + 1) defaultField hi)
    have hchain := offsetsFrom_chain fields 0 i hi
    rw [hchain]
    refine ⟨le_alignUp _ _, alignUp_lt _ _ ha, ?_⟩
    intro m hm1 hm2
    exact min_multiple _ _ _ _ (alignUp_mod _ _ ha) hm2 (le_alignUp _ _) (alignUp_lt _ _ ha) hm1

/-- Witness for C1 on the concrete schema with a u8 field then a u32 field:
offsets are 0 and 4, the second is 4-aligned and past the first field's end. -/
theorem claim_c1_witness :
    (DynamicTypeLayout.new "W" [("o", u8L), ("a", u32L)] = some LW) ∧
    LW.field_offsets.getD 0 0 = 0 ∧
    LW.field_offsets.getD 1 0 % u32L.align = 0 ∧
    LW.field_offsets.getD 0 0 + u8L.size ≤ LW.field_offsets.getD 1 0 := by
  have h := claim_c1 "W" [("o", u8L), ("a", u32L)] LW rfl
  exact ⟨rfl, h.2.1 (by decide), h.2.2.1 1 (by decide), (h.2.2.2 0 (by decide)).1⟩

/-- Writing inside the buffer preserves its length. -/
theorem listWriteAt_length (data bytes : List Nat) (offset : Nat)
    (h : offset + bytes.length ≤ data.length) :
    (listWriteAt data offset bytes).length = data.length := by
  simp only [listWriteAt, List.length_append, List.length_take, List.length_drop]
  omega

/-- The default-writing loop succeeds, preserving the buffer length, whenever
every write lands inside the buffer. -/
theorem writeDefaults_total : ∀ (pairs : List (List Nat × Nat)) (data : List Nat),
    (∀ p ∈ pairs, p.2 + p.1.length ≤ data.length) →
    ∃ d', writeDefaults data pairs = some d' ∧ d'.length = data.length := by
  intro pairs
  induction pairs with
  | nil => intro data _; exact ⟨data, rfl, rfl⟩
  | cons q rest ih =>
    intro data h
    obtain ⟨bytes, offset⟩ := q
    have hq := h (bytes, offset) (List.mem_cons_self _ _)
    have hlen := listWriteAt_length data bytes offset hq
    obtain ⟨d', hd1, hd2⟩ := ih (listWriteAt data offset bytes)
      (fun p hp => by rw [hlen]; exact h p (List.mem_cons_of_mem _ hp))
    refine ⟨d', ?_, by rw [hd2, hlen]⟩
    simp only [writeDefaults]
    rw [if_pos hq]
    exact hd1

/-- Every member of a zip is the pair of aligned getD reads at some index. -/
theorem zip_index : ∀ (ds : List (List Nat)) (os : List Nat) (p : List Nat × Nat),
    p ∈ ds.zip os →
    ∃ i, i < ds.length ∧ i < os.length ∧ ds.getD i [] = p.1 ∧ os.getD i 0 = p.2 := by
  intro ds
  induction ds with
  | nil => intro os p h; simp at h
  | cons d rest ih =>
    intro os p h
    cases os with
    | nil => simp at h
    | cons o orest =>
      rw [List.zip_cons_cons] at h
      rcases List.mem_cons.mp h with h1 | h1
      · exact ⟨0, by simp, by simp, by simp [h1], by simp [h1]⟩
      · obtain ⟨i, hi1, hi2, hi3, hi4⟩ := ih orest p h1
        exact ⟨i + 1, by simpa using Nat.succ_lt_succ hi1, by simpa using Nat.succ_lt_succ hi2,
          by simpa [List.getD_cons_succ] using hi3, by simpa [List.getD_cons_succ] using hi4⟩

/-- An in-bounds getD read through a map applies the function to the getD read
of the underlying list, whatever the defaults. -/
theorem getD_map_of_lt {α β : Type} (l : List α) (g : α → β) (i : Nat) (d1 : β) (d2 : α)
    (h : i < l.length) : (l.map g).getD i d1 = g (l.getD i d2) := by
  induction l generalizing i with
  | nil => simp at h
  | cons x xs ih =>
    cases i with
    | zero => simp
    | succ j =>
      simp only [List.map_cons, List.getD_cons_succ]
      exact ih j (by simpa using Nat.lt_of_succ_lt_succ h)

/-- C10: for a successfully built schema with at least one field, all fields of
nonzero size and alignment at most size (as for every Rust type of nonzero
size) and default byte images of exactly the field's size (as produced by
DefaultBytes::default_bytes), the padding before each field is less than that
field's size, total_size equals exactly the end of the last field, every field
lies inside the schema, and constructing a record instance succeeds with every
default byte written inside the allocated buffer. -/
theorem claim_c10 (name : String) (fields : List (String × StaticTypeLayout))
    (L : DynamicTypeLayout)
    (h : DynamicTypeLayout.new name fields = some L)
    (hne : fields ≠ [])
    (hwf : ∀ p ∈ fields,
      1 ≤ p.2.size ∧ p.2.align ≤ p.2.size ∧ p.2.default_bytes.length = p.2.size) :
    (∀ i, i + 1 < fields.length →
      L.field_offsets.getD (i + 1) 0 <
        L.field_offsets.getD i 0 + (fields.getD i defaultField).2.size +
          (fields.getD (i + 1) defaultField).2.size) ∧
    L.total_size =
      L.field_offsets.getD (fields.length - 1) 0 +
        (fields.getD (fields.length - 1) defaultField).2.size ∧
    (∀ i, i < fields.length →
      L.field_offsets.getD i 0 + (fields.getD i defaultField).2.size ≤ L.total_size) ∧
    ∃ s, DynamicStruct.new L = some s ∧ s.data.length = L.total_size := by
  obtain ⟨r1, r2, r3, _, r5, r6, r7⟩ := new_spec name fields L h
  have hSe := sizes_le_endFrom fields 0
  have hlen1 : 1 ≤ fields.length := List.length_pos.mpr hne
  have hbound := endFrom_bound fields 0 (fun p hp => ⟨r7 p hp, (hwf p hp).2.1⟩)
  have hmod : endFrom 0 fields % sizesSum fields = endFrom 0 fields - sizesSum fields := by
    rw [Nat.mod_eq_sub_mod (by omega)]
    exact Nat.mod_eq_of_lt (by omega)
  have htot : L.total_size = endFrom 0 fields := by rw [r6, hmod]; omega
  refine ⟨?_, ?_, ?_, ?_⟩
  · intro i hi
    have hmem := getD_mem_of_lt fields (i + 1) defaultField hi
    have ha : 1 ≤ (fields.getD (i + 1) defaultField).2.align := r7 _ hmem
    have hs := (hwf _ hmem).2.1
    have hchain := offsetsFrom_chain fields 0 i hi
    rw [r1, hchain]
    have := alignUp_lt
      ((offsetsFrom 0 fields).getD i 0 + (fields.getD i defaultField).2.size)
      ((fields.getD (i + 1) defaultField).2.align) ha
    omega
  · rw [htot, r1]
    exact endFrom_last fields 0 hne
  · intro i hi
    rw [htot, r1]
    exact offsetsFrom_end_le fields 0 i hi
  · have hcond : ∀ p ∈ L.field_defaults.zip L.field_offsets,
        p.2 + p.1.length ≤ (List.replicate L.total_size 0).length := by
      intro p hp
      obtain ⟨i, hi1, hi2, hi3, hi4⟩ := zip_index L.field_defaults L.field_offsets p hp
      have hilen : i < fields.length := by
        rw [r3] at hi1
        simpa using hi1
      have hp1 : p.1 = (fields.getD i defaultField).2.default_bytes := by
        rw [← hi3, r3]
        exact getD_map_of_lt fields (fun p => p.2.default_bytes) i [] defaultField hilen
      have hp2 : p.2 = (offsetsFrom 0 fields).getD i 0 := by rw [← hi4, r1]
      have hdl := (hwf _ (getD_mem_of_lt fields i defaultField hilen)).2.2
      have hend := offsetsFrom_end_le fields 0 i hilen
      rw [List.length_replicate, htot, hp1, hp2, hdl]
      omega
    obtain ⟨d', hd1, hd2⟩ := writeDefaults_total (L.field_defaults.zip L.field_offsets)
      (List.replicate L.total_size 0) hcond
    refine ⟨⟨L, d'⟩, ?_, ?_⟩
    · unfold DynamicStruct.new
      rw [hd1]
    · simpa using hd2

/-- Witness for C10 on the u8-then-u32 schema: the total size is exactly the
end of the last field and instantiation succeeds. -/
theorem claim_c10_witness :
    (DynamicTypeLayout.new "W" [("o", u8L), ("a", u32L)] = some LW) ∧
    LW.total_size = LW.field_offsets.getD 1 0 + u32L.size ∧
    (DynamicStruct.new LW).isSome = true := by
  have h := claim_c10 "W" [("o", u8L), ("a", u32L)] LW rfl (by decide) (by decide)
  refine ⟨rfl, h.2.1, ?_⟩
  obtain ⟨s, hs, _⟩ := h.2.2.2
  rw [hs]
  rfl

/-- C2: the claim states that total_size is at least the end of the last field,
padded to a multiple of the widest field's alignment, and that an empty schema
succeeds with total_size 0. The code instead computes total_size = sum_sizes +
(end_offset % sum_sizes): on an empty field list the remainder divides by zero
(a panic, modelled none), and on a u32-then-u8 schema the result 5 is not a
multiple of the widest alignment 4 (conventional tail padding would give 8).
The spec itself flags this formula as a likely defect, so the code, not the
claim, is wrong. -/
theorem claim_c2_eval :
    DynamicTypeLayout.new "Empty" [] = none ∧
    (DynamicTypeLayout.new "S" [("a", u32L), ("b", u8L)]).map (fun L => L.total_size) = some 5 ∧
    5 % u32L.align ≠ 0 :=
  ⟨rfl, rfl, by decide⟩

/-- C4: the claim states that duplicate field names always abort construction
and distinct names never trigger the duplicate error. The code checks the new
FIELD name against the accumulated TYPE names (field_type_names.contains), so
a schema with the field name used twice builds successfully, while a schema
whose second field is named like the first field's type aborts despite its
names being pairwise distinct. -/
theorem claim_c4_eval :
    (DynamicTypeLayout.new "S" [("a", u8L), ("a", u8L)]).isSome = true ∧
    DynamicTypeLayout.new "S2" [("y", u8L), ("u8", u8L)] = none :=
  ⟨rfl, rfl⟩

/-- C5: the name-not-found half of the claim holds (every by-name checked
accessor returns the not-found error for an unknown name, touching no memory),
but the out-of-bounds half fails: for an index equal to the field count the
try_ accessors panic (none) inside type_is, which indexes field_types[index]
before any bounds check, instead of returning the index-out-of-bounds error;
the inverted comparison field_offsets.len() < index makes the error variants
unreachable. L1 has exactly one field, so index 1 is out of range. -/
theorem claim_c5_eval :
    L1.try_set_field [0] "zzz" 1 "u8" (42 : Nat) [9] =
      some (Except.error (DynamicFieldError.setFieldNameNotFound "zzz" 42)) ∧
    L1.try_clone_field [0] "zzz" 1 "u8" =
      some (Except.error (DynamicFieldError.getFieldNameNotFound "zzz")) ∧
    L1.try_get_field_ref [0] "zzz" 1 "u8" =
      some (Except.error (DynamicFieldError.getFieldNameNotFound "zzz")) ∧
    L1.try_get_field_mut [0] "zzz" 1 "u8" =
      some (Except.error (DynamicFieldError.getFieldNameNotFound "zzz")) ∧
    L1.try_set_field_by_index [0] 1 1 "u8" (42 : Nat) [9] = none ∧
    L1.try_clone_field_by_index [0] 1 1 "u8" = none ∧
    L1.try_get_field_ref_by_index [0] 1 1 "u8" = none ∧
    L1.try_get_field_mut_by_index [0] 1 1 "u8" = none :=
  ⟨rfl, rfl, rfl, rfl, rfl, rfl, rfl, rfl⟩

/-- C6: a checked-tier access to an existing field whose declared type differs
from the requested one returns the type-mismatch error, carrying the requested
and declared type names; no value is returned, and the set variant's error
additionally hands the value back to the caller. -/
theorem claim_c6 {α : Type} (L : DynamicTypeLayout) (data : List Nat) (index t tid : Nat)
    (tname an : String) (val : α) (bytes : List Nat)
    (h1 : L.field_types.get? index = some t) (h2 : t ≠ tid)
    (h3 : L.field_type_names.get? index = some an) :
    L.try_set_field_by_index data index tid tname val bytes =
      some (Except.error (DynamicFieldError.setInvalidTypeOfField val tname an)) ∧
    L.try_clone_field_by_index data index tid tname =
      some (Except.error (DynamicFieldError.getInvalidTypeOfField tname an)) ∧
    L.try_get_field_ref_by_index data index tid tname =
      some (Except.error (DynamicFieldError.getInvalidTypeOfField tname an)) ∧
    L.try_get_field_mut_by_index data index tid tname =
      some (Except.error (DynamicFieldError.getInvalidTypeOfField tname an)) := by
  have ht : L.type_is tid index = some false := by
    unfold DynamicTypeLayout.type_is
    rw [h1]
    simp [h2]
  refine ⟨?_, ?_, ?_, ?_⟩
  · simp only [DynamicTypeLayout.try_set_field_by_index, ht, h3]
  · simp only [DynamicTypeLayout.try_clone_field_by_index, ht, h3]
  · simp only [DynamicTypeLayout.try_get_field_ref_by_index, ht, h3]
  · simp only [DynamicTypeLayout.try_get_field_mut_by_index, ht, h3]

/-- Witness for C6: reading or writing the u8 field of the sample schema under
a wrong type identity yields the mismatch errors. -/
theorem claim_c6_witness :
    (LW.field_types.get? 0 = some 1 ∧ (1 : Nat) ≠ 999 ∧
      LW.field_type_names.get? 0 = some "u8") ∧
    LW.try_set_field_by_index [0, 0, 0, 0, 0, 0, 0, 0] 0 999 "f32" (7 : Nat) [1] =
      some (Except.error (DynamicFieldError.setInvalidTypeOfField 7 "f32" "u8")) ∧
    LW.try_clone_field_by_index [0, 0, 0, 0, 0, 0, 0, 0] 0 999 "f32" =
      some (Except.error (DynamicFieldError.getInvalidTypeOfField "f32" "u8")) := by
  have h := claim_c6 LW [0, 0, 0, 0, 0, 0, 0, 0] 0 1 999 "f32" "u8" (7 : Nat) [1]
    rfl (by decide) rfl
  exact ⟨⟨rfl, by decide, rfl⟩, h.1, h.2.1⟩

/-- C7: consuming an instance as a type whose size differs from the buffer
length panics on the size check, which precedes every mutation: the instance is
handed to the panic untouched, no bytes change and no ownership transfers. -/
theorem claim_c7 (s : DynamicStruct) (tsize : Nat) (h : s.data.length ≠ tsize) :
    DynamicStruct.cast s tsize = CastResult.panicked s := by
  unfold DynamicStruct.cast
  rw [if_pos h]

/-- Witness for C7: casting a 3-byte instance to an 8-byte type panics with the
instance unchanged. -/
theorem claim_c7_witness :
    (([1, 2, 3] : List Nat).length ≠ 8) ∧
    DynamicStruct.cast ⟨L3, [1, 2, 3]⟩ 8 = CastResult.panicked ⟨L3, [1, 2, 3]⟩ :=
  ⟨by decide, claim_c7 ⟨L3, [1, 2, 3]⟩ 8 (by decide)⟩

/-- C8: consuming an instance as a type of exactly the buffer's size returns
the buffer bit for bit as the byte image of the produced value, and leaves the
instance with an empty buffer whose release performs no field teardown. -/
theorem claim_c8 (s : DynamicStruct) (tsize : Nat) (h : s.data.length = tsize) :
    DynamicStruct.cast s tsize = CastResult.ok s.data ⟨s.type_layout, []⟩ ∧
    dropEmits ⟨s.type_layout, []⟩ = [] := by
  constructor
  · unfold DynamicStruct.cast
    rw [if_neg (by omega)]
  · rfl

/-- Witness for C8: consuming an 8-byte instance as an 8-byte type hands back
exactly its bytes and the consumed instance's release drops nothing. -/
theorem claim_c8_witness :
    (([1, 2, 3, 4, 5, 6, 7, 8] : List Nat).length = 8) ∧
    DynamicStruct.cast ⟨L3, [1, 2, 3, 4, 5, 6, 7, 8]⟩ 8 =
      CastResult.ok [1, 2, 3, 4, 5, 6, 7, 8] ⟨L3, []⟩ ∧
    dropEmits ⟨L3, []⟩ = [] := by
  have h := claim_c8 ⟨L3, [1, 2, 3, 4, 5, 6, 7, 8]⟩ 8 rfl
  exact ⟨rfl, h.1, h.2⟩

/-- C9 counterexample: the claim states a write never invokes the previous
field value's destructor. On the schema whose single field carries a
destructor, the checked write emits exactly one destructor invocation for the
overwritten value, at the field's offset, because the typed place assignment of
set_field_unchecked_by_index drops the destination's old value before storing
the new bytes. -/
theorem claim_c9_counterexample :
    DynamicTypeLayout.set_field_by_index L3 [1, 2, 3, 4, 5, 6, 7, 8] 0 4
      [9, 9, 9, 9, 9, 9, 9, 9] = some ([9, 9, 9, 9, 9, 9, 9, 9], [(0, 0)]) ∧
    ([(0, 0)] : List (Nat × Nat)) ≠ [] :=
  ⟨rfl, by decide⟩

/-- C9 as amended: a checked write stores the new value's bytes directly over
the field's slot and, because the store is a typed place assignment, first runs
the previous value's destructor exactly when the field's declared type carries
one; the prior value is released by the write rather than leaked. -/
theorem claim_c9_amended (L : DynamicTypeLayout) (data : List Nat) (index t : Nat)
    (bytes : List Nat) (offset : Nat)
    (h1 : L.field_types.get? index = some t)
    (h2 : L.field_offsets.get? index = some offset)
    (h3 : offset + bytes.length ≤ data.length) :
    L.set_field_by_index data index t bytes =
      some (listWriteAt data offset bytes,
        if L.field_drop_fns.getD index false then [(index, offset)] else []) := by
  have ht : L.type_is t index = some true := by
    unfold DynamicTypeLayout.type_is
    rw [h1]
    simp
  simp only [DynamicTypeLayout.set_field_by_index, ht,
    DynamicTypeLayout.set_field_unchecked_by_index, h2]
  rw [if_pos h3]

/-- Witness for C9's amended statement: writing the droppable field of the
one-field schema overwrites its 8 bytes and emits the old value's destructor
invocation at offset 0. -/
theorem claim_c9_amended_witness :
    (L3.field_types.get? 0 = some 4 ∧ L3.field_offsets.get? 0 = some 0 ∧
      0 + ([9, 9, 9, 9, 9, 9, 9, 9] : List Nat).length ≤
        ([1, 2, 3, 4, 5, 6, 7, 8] : List Nat).length) ∧
    DynamicTypeLayout.set_field_by_index L3 [1, 2, 3, 4, 5, 6, 7, 8] 0 4
      [9, 9, 9, 9, 9, 9, 9, 9] =
      some (listWriteAt [1, 2, 3, 4, 5, 6, 7, 8] 0 [9, 9, 9, 9, 9, 9, 9, 9],
        if L3.field_drop_fns.getD 0 false then [(0, 0)] else []) :=
  ⟨⟨rfl, rfl, by decide⟩,
    claim_c9_amended L3 [1, 2, 3, 4, 5, 6, 7, 8] 0 4 [9, 9, 9, 9, 9, 9, 9, 9] 0
      rfl rfl (by decide)⟩

/-- Counting splits over concatenation. -/
theorem countIdx_append (l1 l2 : List (Nat × Nat)) (i : Nat) :
    countIdx (l1 ++ l2) i = countIdx l1 i + countIdx l2 i := by
  simp [countIdx, List.filter_append]

/-- Counting a conditional singleton emission. -/
theorem countIdx_single (j off i : Nat) (b : Bool) :
    countIdx (if b then [(j, off)] else []) i = if j = i ∧ b = true then 1 else 0 := by
  cases b with
  | false => simp [countIdx]
  | true =>
    by_cases hj : j = i
    · simp [countIdx, hj]
    · simp [countIdx, hj]

/-- The Drop loop emits exactly one invocation for field i when its drop flag
is set, none otherwise. -/
theorem dropLoop_count : ∀ (fns : List Bool) (offs : List Nat) (k i : Nat),
    countIdx (dropLoop fns offs k) i =
      if k ≤ i ∧ fns.getD (i - k) false = true then 1 else 0 := by
  intro fns
  induction fns with
  | nil => intro offs k i; simp [dropLoop, countIdx]
  | cons b rest ih =>
    intro offs k i
    simp only [dropLoop]
    rw [countIdx_append, countIdx_single, ih offs (k + 1) i]
    rcases Nat.lt_trichotomy k i with hk | hk | hk
    · have hne : ¬(k = i) := by omega
      have hd : (b :: rest).getD (i - k) false = rest.getD (i - (k + 1)) false := by
        have hik : i - k = (i - (k + 1)) + 1 := by omega
        rw [hik, List.getD_cons_succ]
      simp only [hd]
      rw [if_neg (show ¬(k = i ∧ b = true) from fun hx => hne hx.1), Nat.zero_add]
      exact if_congr
        (Iff.intro (fun hx => ⟨by omega, hx.2⟩) (fun hx => ⟨by omega, hx.2⟩)) rfl rfl
    · have hd0 : i - k = 0 := by omega
      have h2 : ¬(k + 1 ≤ i) := by omega
      simp only [hd0, List.getD_cons_zero]
      rw [if_neg (show ¬(k + 1 ≤ i ∧ rest.getD (i - (k + 1)) false = true) from
        fun hx => h2 hx.1), Nat.add_zero]
      exact if_congr
        (Iff.intro (fun hx => ⟨by omega, hx.2⟩) (fun hx => ⟨by omega, hx.2⟩)) rfl rfl
    · have h1 : ¬(k = i) := by omega
      have h2 : ¬(k + 1 ≤ i) := by omega
      have h3 : ¬(k ≤ i) := by omega
      simp [h1, h2, h3]

/-- Release-time emissions, counted per field: one invocation when the buffer
is nonempty and the field's descriptor carries a destructor, none otherwise. -/
theorem dropEmits_count (s : DynamicStruct) (i : Nat) :
    countIdx (dropEmits s) i =
      if s.data.length ≠ 0 ∧ s.type_layout.field_drop_fns.getD i false = true then 1 else 0 := by
  unfold dropEmits
  by_cases hz : s.data.length = 0
  · rw [if_pos hz]
    simp [countIdx, hz]
  · rw [if_neg hz]
    rw [dropLoop_count s.type_layout.field_drop_fns s.type_layout.field_offsets 0 i]
    simp [hz]

/-- Inversion of a successful checked write: the new buffer is the old one with
the bytes stored at the field's offset, and the emission is the old value's
destructor invocation exactly when the field carries a drop_fn. -/
theorem set_field_by_index_inv {L : DynamicTypeLayout} {data data' : List Nat}
    {index tid : Nat} {bytes : List Nat} {ems : List (Nat × Nat)}
    (h : L.set_field_by_index data index tid bytes = some (data', ems)) :
    ∃ offset, L.field_offsets.get? index = some offset ∧
      data' = listWriteAt data offset bytes ∧
      ems = if L.field_drop_fns.getD index false then [(index, offset)] else [] := by
  simp only [DynamicTypeLayout.set_field_by_index] at h
  cases hti : L.type_is tid index with
  | none => simp only [hti] at h; exact Option.noConfusion h
  | some b =>
    simp only [hti] at h
    cases b with
    | false => simp at h
    | true =>
      simp only [DynamicTypeLayout.set_field_unchecked_by_index] at h
      cases hoff : L.field_offsets.get? index with
      | none => simp only [hoff] at h; exact Option.noConfusion h
      | some offset =>
        simp only [hoff] at h
        split_ifs at h with hbnd hdrop
        · injection h with h
          injection h with ha hb2
          exact ⟨offset, rfl, ha.symm, by rw [if_pos hdrop]; exact hb2.symm⟩
        · injection h with h
          injection h with ha hb2
          exact ⟨offset, rfl, ha.symm, by rw [if_neg hdrop]; exact hb2.symm⟩

/-- One lifecycle step preserves the layout and emits, per field, exactly
opEmitCount invocations: the overwritten value's destructor for a droppable
write, nothing for a consuming cast. -/
theorem opStep_emits (s s1 : DynamicStruct) (op : Op) (em : List (Nat × Nat))
    (h : opStep s op = some (s1, em)) :
    s1.type_layout = s.type_layout ∧
    ∀ i, countIdx em i = opEmitCount s.type_layout i op := by
  cases op with
  | set j tid bytes =>
    simp only [opStep] at h
    cases hs : s.type_layout.set_field_by_index s.data j tid bytes with
    | none => simp only [hs] at h; exact Option.noConfusion h
    | some res =>
      simp only [hs] at h
      obtain ⟨data', ems⟩ := res
      injection h with h
      injection h with h1 h2
      subst h1
      subst h2
      obtain ⟨offset, _, _, ho3⟩ := set_field_by_index_inv hs
      refine ⟨rfl, ?_⟩
      intro i
      rw [ho3, countIdx_single]
      simp only [opEmitCount]
  | cast tsize =>
    simp only [opStep] at h
    cases hc : DynamicStruct.cast s tsize with
    | panicked s2 => simp only [hc] at h; exact Option.noConfusion h
    | ok bytes s2 =>
      simp only [hc] at h
      injection h with h
      injection h with h1 h2
      subst h1
      subst h2
      unfold DynamicStruct.cast at hc
      split_ifs at hc with hl
      injection hc with hb hs2
      refine ⟨?_, ?_⟩
      · rw [← hs2]
      · intro i
        simp [countIdx, opEmitCount]

/-- A lifecycle step head splits off its own emission count. -/
theorem dropWrites_cons (L : DynamicTypeLayout) (i : Nat) (op : Op) (rest : List Op) :
    dropWrites L i (op :: rest) = opEmitCount L i op + dropWrites L i rest := by
  cases op <;> simp [dropWrites, opEmitCount]

/-- C3 as amended: over an instance's lifetime, field i's destructor runs once
per checked write to a droppable field i (releasing the overwritten value, a
consequence of the typed place assignment in the write path) plus exactly once
at release on the bytes at the field's offset, unless the buffer is then empty
because it was consumed by a cast or the schema is zero-sized; in a lifecycle
with no writes it therefore runs exactly once unless consumed or zero-sized,
and never more than once. -/
theorem claim_c3_amended (ops : List Op) : ∀ (s s' : DynamicStruct) (ems : List (Nat × Nat)),
    runOps s ops = some (s', ems) → ∀ i,
    countIdx (ems ++ dropEmits s') i =
      dropWrites s.type_layout i ops +
        (if s'.data.length ≠ 0 ∧ s.type_layout.field_drop_fns.getD i false = true
         then 1 else 0) := by
  induction ops with
  | nil =>
    intro s s' ems h i
    simp only [runOps] at h
    injection h with h
    injection h with h1 h2
    subst h1
    subst h2
    simp only [List.nil_append, dropWrites]
    rw [Nat.zero_add]
    exact dropEmits_count s i
  | cons op rest ih =>
    intro s s' ems h i
    simp only [runOps] at h
    cases h1 : opStep s op with
    | none => simp only [h1] at h; exact Option.noConfusion h
    | some r1 =>
      obtain ⟨s1, em1⟩ := r1
      simp only [h1] at h
      cases h2 : runOps s1 rest with
      | none => simp only [h2] at h; exact Option.noConfusion h
      | some r2 =>
        obtain ⟨s2, ems2⟩ := r2
        simp only [h2] at h
        injection h with h
        injection h with h3 h4
        subst h3
        subst h4
        obtain ⟨hl, hce⟩ := opStep_emits s s1 op em1 h1
        have hih := ih s1 s2 ems2 h2 i
        rw [hl] at hih
        rw [List.append_assoc, countIdx_append, hih, hce i, dropWrites_cons]
        omega

/-- C3 counterexample: the claim states each field's destructor runs at most
once over the instance's lifetime. On an instance of the one-droppable-field
schema, a lifecycle consisting of a single checked write runs the field's
destructor twice: once on the overwritten value during the write (the typed
place assignment drops the old value) and once at release. -/
theorem claim_c3_counterexample :
    lifetimeEmits ⟨L3, [1, 2, 3, 4, 5, 6, 7, 8]⟩ [Op.set 0 4 [9, 9, 9, 9, 9, 9, 9, 9]] =
      some [(0, 0), (0, 0)] ∧
    countIdx [(0, 0), (0, 0)] 0 = 2 ∧ ¬(2 ≤ 1) :=
  ⟨rfl, rfl, by decide⟩

/-- Witness for C3's amended statement on the single-write lifecycle of the
one-droppable-field schema: 1 write-time invocation plus 1 release-time
invocation. -/
theorem claim_c3_amended_witness :
    (runOps ⟨L3, [1, 2, 3, 4, 5, 6, 7, 8]⟩ [Op.set 0 4 [9, 9, 9, 9, 9, 9, 9, 9]] =
      some (⟨L3, [9, 9, 9, 9, 9, 9, 9, 9]⟩, [(0, 0)])) ∧
    countIdx ([(0, 0)] ++ dropEmits ⟨L3, [9, 9, 9, 9, 9, 9, 9, 9]⟩) 0 =
      dropWrites L3 0 [Op.set 0 4 [9, 9, 9, 9, 9, 9, 9, 9]] +
        (if ([9, 9, 9, 9, 9, 9, 9, 9] : List Nat).length ≠ 0 ∧
            L3.field_drop_fns.getD 0 false = true
         then 1 else 0) :=
  ⟨rfl, claim_c3_amended [Op.set 0 4 [9, 9, 9, 9, 9, 9, 9, 9]]
    ⟨L3, [1, 2, 3, 4, 5, 6, 7, 8]⟩ ⟨L3, [9, 9, 9, 9, 9, 9, 9, 9]⟩ [(0, 0)] rfl 0⟩

end DynTypes
